import Mathlib

/-!
Verification of the amplicon-processing pipeline scripts
(`Amplicaon_processing.py` / `Amplicaon_processing2.py`).

The development shallowly embeds the parts of the two scripts that carry
non-trivial logic:

* the low-abundance OTU-table filter of `filter_low_abundance_otus`
  (per-sample-column thresholding plus the passed/failed partition of the
  OTU sequence records),
* the demultiplex loop of `main` (per-sample command construction and the
  missing-file soft-skip policy),
* the working-directory discipline of `relabel_and_cluster`,
* the interactive threshold validators for `filter_min_count` and
  `filter_min_freq`.

Cells of the OTU table are natural numbers; frequencies are rationals
(the scripts compare `x / total` against a user-given threshold).
-/

namespace Amplicon

/-- An OTU abundance table as read by `pd.read_csv("otutab.txt", sep="\t",
index_col=0)`: row labels (OTU ids), column labels (sample ids), and the
count data stored column-major (`cols[j]` is the column of sample `j`,
listed row by row), matching the per-column loop of the script. -/
structure OTUTable where
  otuIds : List String
  sampleIds : List String
  cols : List (List Nat)
deriving DecidableEq

/-- One cell of the abundance filter, from
`lambda x: x if (x >= filter_min_count and (x / total) >= filter_min_freq) else 0`
(line 383 of `Amplicaon_processing2.py`). -/
def filterCell (mc : Nat) (mf : ℚ) (total x : Nat) : Nat :=
  if mc ≤ x ∧ mf ≤ (x : ℚ) / (total : ℚ) then x else 0

/-- The same cell computation, instrumented with evaluation order: the
second component records whether the division `x / total` was evaluated.
Python's `and` short-circuits, so the division only runs when
`x >= filter_min_count` already holds. -/
def filterCellT (mc : Nat) (mf : ℚ) (total x : Nat) : Nat × Bool :=
  if mc ≤ x then
    (if mf ≤ (x : ℚ) / (total : ℚ) then x else 0, true)
  else (0, false)

/-- One iteration of the per-sample loop (lines 380-383):
`total = otu_df[sample].sum()` followed by
`otu_df[sample].apply(lambda x: ...)`. The denominator is the sum of the
column being mapped. -/
def filterCol (mc : Nat) (mf : ℚ) (col : List Nat) : List Nat :=
  col.map (filterCell mc mf col.sum)

/-- Instrumented version of `filterCol`. -/
def filterColT (mc : Nat) (mf : ℚ) (col : List Nat) : List (Nat × Bool) :=
  col.map (filterCellT mc mf col.sum)

/-- The `for sample in otu_df.columns` loop, parameterised by the order in
which the columns are visited: starting from a copy of the original data
(`otu_df_filtered = otu_df.copy()`), each visited column `j` of the
accumulator is overwritten with the filtered column computed from the
ORIGINAL table `cols`. -/
def applyFilterSeq (mc : Nat) (mf : ℚ) (cols : List (List Nat))
    (order : List Nat) : List (List Nat) :=
  order.foldl (fun acc j => acc.set j (filterCol mc mf (cols.getD j []))) cols

/-- `filter_low_abundance_otus`, Step 1: the whole-table filter.  The
script visits the columns in their natural left-to-right order; row and
column labels are untouched (`to_csv` writes the same index). -/
def filterTable (mc : Nat) (mf : ℚ) (t : OTUTable) : OTUTable :=
  ⟨t.otuIds, t.sampleIds, applyFilterSeq mc mf t.cols (List.range t.cols.length)⟩

section FilterLemmas

/-- A filtered cell is the original count or zero, never larger. -/
lemma filterCell_le (mc : Nat) (mf : ℚ) (total x : Nat) :
    filterCell mc mf total x ≤ x := by
  unfold filterCell
  split
  · exact le_refl x
  · exact Nat.zero_le x

/-- A zero count is always zero after filtering (both branches give 0). -/
lemma filterCell_zero (mc : Nat) (mf : ℚ) (total : Nat) :
    filterCell mc mf total 0 = 0 := by
  unfold filterCell
  split <;> rfl

/-- The instrumented cell computes the same count as the plain one. -/
lemma filterCellT_fst (mc : Nat) (mf : ℚ) (total x : Nat) :
    (filterCellT mc mf total x).1 = filterCell mc mf total x := by
  unfold filterCellT filterCell
  by_cases h1 : mc ≤ x
  · by_cases h2 : mf ≤ (x : ℚ) / (total : ℚ)
    · simp [h1, h2]
    · simp [h1, h2]
  · simp [h1]

/-- The instrumented column filter computes the same counts as the plain
one. -/
lemma filterColT_fst (mc : Nat) (mf : ℚ) (col : List Nat) :
    (filterColT mc mf col).map Prod.fst = filterCol mc mf col := by
  unfold filterColT filterCol
  rw [List.map_map]
  apply List.map_congr_left
  intro x _
  exact filterCellT_fst mc mf col.sum x

/-- Mapping the cell filter over any list never increases its sum. -/
lemma sum_map_filterCell_le (mc : Nat) (mf : ℚ) (T : Nat) (col : List Nat) :
    (col.map (filterCell mc mf T)).sum ≤ col.sum := by
  induction col with
  | nil => simp
  | cons x xs ih =>
    simp only [List.map_cons, List.sum_cons]
    exact Nat.add_le_add (filterCell_le mc mf T x) ih

/-- Filtering a column never increases its sum. -/
lemma sum_filterCol_le (mc : Nat) (mf : ℚ) (col : List Nat) :
    (filterCol mc mf col).sum ≤ col.sum :=
  sum_map_filterCell_le mc mf col.sum col

/-- A nonzero filtered value came through unchanged and passed both
thresholds. -/
lemma filterCell_eq_of_ne_zero {mc : Nat} {mf : ℚ} {total x y : Nat}
    (h : filterCell mc mf total x = y) (hy : y ≠ 0) :
    y = x ∧ mc ≤ x ∧ mf ≤ (x : ℚ) / (total : ℚ) := by
  unfold filterCell at h
  split at h
  · rename_i hcond
    exact ⟨h.symm, hcond.1, hcond.2⟩
  · exact absurd h.symm hy

/-- A fold that overwrites position `k` with `f k` for each visited `k`
preserves the length of the accumulator. -/
lemma foldl_set_length {α : Type} (f : Nat → α) :
    ∀ (order : List Nat) (acc : List α),
      (order.foldl (fun a k => a.set k (f k)) acc).length = acc.length := by
  intro order
  induction order with
  | nil => intro acc; rfl
  | cons k rest ih =>
    intro acc
    simp only [List.foldl_cons]
    rw [ih (acc.set k (f k)), List.length_set]

/-- Element-wise description of the overwrite fold: a position is `f j`
exactly when it was visited (and exists), and untouched otherwise. -/
lemma foldl_set_getElem? {α : Type} (f : Nat → α) :
    ∀ (order : List Nat) (acc : List α) (j : Nat),
      (order.foldl (fun a k => a.set k (f k)) acc)[j]? =
        if j ∈ order ∧ j < acc.length then some (f j) else acc[j]? := by
  intro order
  induction order with
  | nil => intro acc j; simp
  | cons k rest ih =>
    intro acc j
    simp only [List.foldl_cons]
    rw [ih (acc.set k (f k)) j]
    by_cases hmem : j ∈ rest
    · by_cases hlt : j < acc.length
      · simp [hmem, hlt, List.length_set, List.mem_cons]
      · simp only [hmem, hlt, List.length_set, List.mem_cons, true_or,
          or_true, and_false, if_false, true_and, and_true]
        rw [List.getElem?_set]
        by_cases hkj : k = j
        · subst hkj
          rw [if_pos rfl, if_neg hlt, List.getElem?_eq_none (Nat.le_of_not_lt hlt)]
        · rw [if_neg hkj]
    · by_cases hk : j = k
      · subst hk
        by_cases hlt : j < acc.length
        · simp [hmem, hlt, List.length_set, List.mem_cons, List.getElem?_set]
        · simp only [hmem, hlt, List.length_set, List.mem_cons, or_false,
            and_false, if_false, false_or, and_true]
          rw [List.getElem?_set, if_pos rfl, if_neg hlt,
            List.getElem?_eq_none (Nat.le_of_not_lt hlt)]
      · have : ¬ (j ∈ k :: rest) := by
          simp [List.mem_cons, hk, hmem]
        simp [hmem, hk, List.length_set, this, List.getElem?_set_ne (Ne.symm hk)]

/-- Processing the columns in ANY order that visits every column index
exactly once produces the pointwise-filtered table: each column of the
result is the filter of the corresponding ORIGINAL column. -/
lemma applyFilterSeq_perm (mc : Nat) (mf : ℚ) (cols : List (List Nat))
    (order : List Nat) (hperm : order.Perm (List.range cols.length)) :
    applyFilterSeq mc mf cols order = cols.map (filterCol mc mf) := by
  apply List.ext_getElem?
  intro j
  unfold applyFilterSeq
  rw [foldl_set_getElem? (fun k => filterCol mc mf (cols.getD k []))]
  by_cases hj : j < cols.length
  · have hmem : j ∈ order := by
      rw [hperm.mem_iff]
      exact List.mem_range.mpr hj
    rw [if_pos ⟨hmem, hj⟩, List.getElem?_map, List.getElem?_eq_getElem hj]
    simp [List.getD_eq_getElem?_getD, List.getElem?_eq_getElem hj]
  · have : ¬ (j ∈ order ∧ j < cols.length) := fun h => hj h.2
    rw [if_neg this, List.getElem?_map,
      List.getElem?_eq_none (Nat.le_of_not_lt hj)]
    rfl

/-- The script's natural column order is a special case. -/
lemma filterTable_cols (mc : Nat) (mf : ℚ) (t : OTUTable) :
    (filterTable mc mf t).cols = t.cols.map (filterCol mc mf) :=
  applyFilterSeq_perm mc mf t.cols (List.range t.cols.length) (List.Perm.refl _)

/-- Row and column labels are unchanged by the filter. -/
lemma filterTable_otuIds (mc : Nat) (mf : ℚ) (t : OTUTable) :
    (filterTable mc mf t).otuIds = t.otuIds := rfl

/-- Filtering one column is idempotent: every value that survived the
first pass passes both thresholds again against the (smaller) filtered
column total, and zeros stay zero. -/
lemma filterCol_idem (mc : Nat) (mf : ℚ) (col : List Nat) :
    filterCol mc mf (filterCol mc mf col) = filterCol mc mf col := by
  conv_rhs => rw [← List.map_id (filterCol mc mf col)]
  unfold filterCol
  apply List.map_congr_left
  intro y hy
  rcases List.mem_map.mp hy with ⟨x, hx, hxy⟩
  by_cases hy0 : y = 0
  · subst hy0
    exact filterCell_zero mc mf _
  · obtain ⟨hyx, hmc, hmf⟩ := filterCell_eq_of_ne_zero hxy hy0
    subst hyx
    have hyT' : y ≤ (col.map (filterCell mc mf col.sum)).sum :=
      List.le_sum_of_mem hy
    have hT'T : (col.map (filterCell mc mf col.sum)).sum ≤ col.sum :=
      sum_map_filterCell_le mc mf col.sum col
    have hy0' : 0 < y := Nat.pos_of_ne_zero hy0
    have hT'0 : 0 < (col.map (filterCell mc mf col.sum)).sum :=
      Nat.lt_of_lt_of_le hy0' hyT'
    have hdiv : (y : ℚ) / (col.sum : ℚ) ≤
        (y : ℚ) / (((col.map (filterCell mc mf col.sum)).sum : Nat) : ℚ) := by
      apply div_le_div_of_nonneg_left
      · exact_mod_cast Nat.zero_le y
      · exact_mod_cast hT'0
      · exact_mod_cast hT'T
    show filterCell mc mf _ y = y
    unfold filterCell
    rw [if_pos ⟨hmc, le_trans hmf hdiv⟩]

end FilterLemmas

/-! ### Sequence-record partition (Steps 2-4 of `filter_low_abundance_otus`)

`list.t1` holds every first field of the data lines of
`otutab.filter.txt` with `";"` appended (line 399).  A record of
`otus.fasta` is added to `passed_ids` when one of those strings occurs
inside its identifier (Python's `in`, i.e. contiguous substring,
lines 420-423); everything else goes to `list.filter`. -/

/-- Executable test for "n is an initial segment of h". -/
def prefixB : List Char → List Char → Bool
  | [], _ => true
  | _ :: _, [] => false
  | a :: as, b :: bs => a == b && prefixB as bs

/-- Executable test for Python's `n in h` on strings: `n` occurs
contiguously inside `h`. -/
def infixB (n : List Char) : List Char → Bool
  | [] => prefixB n []
  | c :: t => prefixB n (c :: t) || infixB n t

/-- The id list written to `list.t1`: every row label of the filtered
table with a semicolon appended. -/
def listT1 (t : OTUTable) : List String :=
  t.otuIds.map (fun o => o ++ ";")

/-- `if otu in rid` for some entry of `list.t1`. -/
def matchesAny (ids : List String) (rid : String) : Bool :=
  ids.any (fun o => infixB o.data rid.data)

/-- The records collected into `passed_ids` (written to
`otus.filter.fasta`). -/
def passedIds (ids : List String) (records : List String) : List String :=
  records.filter (fun rid => matchesAny ids rid)

/-- The records whose ids are written to `list.filter`
(`all_otus.keys() - passed_ids`). -/
def failedIds (ids : List String) (records : List String) : List String :=
  records.filter (fun rid => ! matchesAny ids rid)

section MatchLemmas

lemma prefixB_iff : ∀ (n h : List Char), prefixB n h = true ↔ n <+: h := by
  intro n
  induction n with
  | nil =>
    intro h
    simp [prefixB, List.nil_prefix]
  | cons a as ih =>
    intro h
    cases h with
    | nil =>
      simp only [prefixB, Bool.false_eq_true, false_iff]
      rintro ⟨t, ht⟩
      exact List.cons_ne_nil a (as ++ t) ht
    | cons b bs =>
      simp [prefixB, Bool.and_eq_true, beq_iff_eq, ih bs, List.cons_prefix_cons]

lemma infixB_iff : ∀ (h n : List Char), infixB n h = true ↔ n <:+: h := by
  intro h
  induction h with
  | nil =>
    intro n
    simp only [infixB]
    rw [prefixB_iff]
    constructor
    · rintro ⟨t, ht⟩
      have hn : n = [] := (List.append_eq_nil.mp ht).1
      subst hn
      exact ⟨[], [], rfl⟩
    · rintro ⟨s, t, hst⟩
      have h1 : (s ++ n) = [] := (List.append_eq_nil.mp hst).1
      have hn : n = [] := (List.append_eq_nil.mp h1).2
      subst hn
      exact List.nil_prefix
  | cons c t ih =>
    intro n
    simp only [infixB, Bool.or_eq_true, prefixB_iff, ih, List.infix_cons_iff]

end MatchLemmas

section BoundaryLemmas

/-- If `A ++ ";"` is an initial segment of `B ++ ";" ++ s` and `A` itself
contains no semicolon, then either `B` contains a semicolon or `A` is all
of `B`. -/
lemma semi_prefix_cases :
    ∀ (A B s : List Char), Char.ofNat 59 ∉ A →
      A ++ [Char.ofNat 59] <+: B ++ Char.ofNat 59 :: s →
      Char.ofNat 59 ∈ B ∨ A = B := by
  intro A
  induction A with
  | nil =>
    intro B s _ h
    cases B with
    | nil => exact Or.inr rfl
    | cons b B' =>
      left
      rw [List.nil_append] at h
      have hb : Char.ofNat 59 = b := (List.cons_prefix_cons.mp h).1
      rw [← hb]
      exact List.mem_cons_self _ _
  | cons a A' ih =>
    intro B s hA h
    cases B with
    | nil =>
      exfalso
      rw [List.nil_append, List.cons_append] at h
      have ha : a = Char.ofNat 59 := (List.cons_prefix_cons.mp h).1
      exact hA (ha ▸ List.mem_cons_self a A')
    | cons b B' =>
      rw [List.cons_append, List.cons_append] at h
      obtain ⟨hab, h'⟩ := List.cons_prefix_cons.mp h
      have hA' : Char.ofNat 59 ∉ A' := fun hmem => hA (List.mem_cons_of_mem a hmem)
      rcases ih B' s hA' h' with hB' | hAB
      · exact Or.inl (List.mem_cons_of_mem b hB')
      · exact Or.inr (by rw [hab, hAB])

/-- Where `A ++ ";"` can occur inside `B ++ ";" ++ s` when `A` contains
no semicolon: the match either uses a semicolon of `B`, ends exactly at
the appended delimiter (so `A` is a final segment of `B`), or lies
entirely inside `s`. -/
lemma semi_infix_cases (A s : List Char) (hA : Char.ofNat 59 ∉ A) :
    ∀ B, A ++ [Char.ofNat 59] <:+: B ++ Char.ofNat 59 :: s →
      Char.ofNat 59 ∈ B ∨ A <:+ B ∨ A ++ [Char.ofNat 59] <:+: s := by
  intro B
  induction B with
  | nil =>
    intro h
    rw [List.nil_append] at h
    rcases List.infix_cons_iff.mp h with hp | hi
    · rcases semi_prefix_cases A [] s hA (by simpa using hp) with h59 | hAnil
      · exact absurd h59 (List.not_mem_nil _)
      · exact Or.inr (Or.inl (hAnil ▸ List.nil_suffix))
    · exact Or.inr (Or.inr hi)
  | cons b B' ihB =>
    intro h
    rw [List.cons_append] at h
    rcases List.infix_cons_iff.mp h with hp | hi
    · rcases semi_prefix_cases A (b :: B') s hA
        (by rw [List.cons_append]; exact hp) with h59 | hAB
      · exact Or.inl h59
      · exact Or.inr (Or.inl (hAB ▸ List.suffix_refl _))
    · rcases ihB hi with h59 | hsuf | hin
      · exact Or.inl (List.mem_cons_of_mem b h59)
      · exact Or.inr (Or.inl (hsuf.trans (List.suffix_cons b B')))
      · exact Or.inr (Or.inr hin)

end BoundaryLemmas

/-! ### Demultiplex stage (Step 1 of `main`, identical in both scripts) -/

/-- One row of the metadata TSV:
`run_id, sample_id, forward_primer, reverse_primer, forward_file,
reverse_file`. -/
structure SampleRecord where
  runId : String
  sampleId : String
  forwardPrimer : String
  reversePrimer : String
  forwardFile : String
  reverseFile : String
deriving DecidableEq

/-- `os.path.join` for a directory and a relative file name. -/
def pathJoin (d f : String) : String := d ++ "/" ++ f

/-- The cutadapt argument vector built for one sample (lines 543-553 of
`Amplicaon_processing2.py`, lines 175-185 of `Amplicaon_processing.py`). -/
def cutadaptCmd (cutadaptPath inputDir demuxDir : String) (threads : Nat)
    (r : SampleRecord) : List String :=
  [cutadaptPath,
   "-g", "^" ++ r.forwardPrimer,
   "-G", "^" ++ r.reversePrimer,
   "-o", pathJoin demuxDir (r.sampleId ++ ".R1.fastq"),
   "-p", pathJoin demuxDir (r.sampleId ++ ".R2.fastq"),
   "-j", toString threads,
   "--discard-untrimmed",
   "-e", "0.1",
   pathJoin inputDir r.forwardFile,
   pathJoin inputDir r.reverseFile]

/-- What the demultiplex loop does for one sample: either it runs exactly
one external command, or it logs one warning naming the sample. -/
inductive DemuxEvent where
  | ran : List String → DemuxEvent
  | warned : String → DemuxEvent
deriving DecidableEq

/-- The demultiplex loop over the metadata rows.  `ex` is the
file-existence oracle (`os.path.exists`).  A sample with both raw files
present yields one `ran` event; a sample with either file missing yields
one `warned` event (`logging.warning` + `continue`), and the loop always
proceeds to the remaining rows. -/
def demultiplex (ex : String → Bool) (cutadaptPath inputDir demuxDir : String)
    (threads : Nat) : List SampleRecord → List DemuxEvent
  | [] => []
  | r :: rs =>
    (if ex (pathJoin inputDir r.forwardFile) && ex (pathJoin inputDir r.reverseFile)
      then DemuxEvent.ran (cutadaptCmd cutadaptPath inputDir demuxDir threads r)
      else DemuxEvent.warned r.sampleId)
      :: demultiplex ex cutadaptPath inputDir demuxDir threads rs

/-! ### Working-directory discipline of `relabel_and_cluster`

The function saves `orig_dir = os.getcwd()`, switches into
`output_dir/7-OTU`, runs up to three external commands through
`run_command` (which re-raises `CalledProcessError` on a non-zero exit),
and only restores the directory with the final `os.chdir(orig_dir)`.
There is no `try`/`finally` around the body. -/

/-- Result of running a stage: normal completion or a propagated
exception carrying the failing command's description. -/
inductive CmdOutcome where
  | ok : CmdOutcome
  | raised : String → CmdOutcome
deriving DecidableEq

/-- The control flow of `relabel_and_cluster` (lines 144-241) reduced to
its working-directory effect.  `origDir` is the process cwd at entry,
`cmdOk d` tells whether the external command with description `d`
succeeds, and `second` is the interactive choice of a second clustering
pass.  The returned pair is (outcome, cwd when control leaves the
function). -/
def relabelAndClusterCwd (origDir outputDir : String) (cmdOk : String → Bool)
    (second : Bool) : CmdOutcome × String :=
  let otuDir := pathJoin outputDir "7-OTU"
  -- os.chdir(otu_dir): every step below runs with cwd = otuDir
  if ! cmdOk "relabel" then (CmdOutcome.raised "relabel", otuDir)
  else if second then
    if ! cmdOk "cluster2" then (CmdOutcome.raised "cluster2", otuDir)
    else if ! cmdOk "map" then (CmdOutcome.raised "map", otuDir)
    else (CmdOutcome.ok, origDir)   -- os.chdir(orig_dir)
  else
    if ! cmdOk "map2" then (CmdOutcome.raised "map2", otuDir)
    else (CmdOutcome.ok, origDir)   -- os.chdir(orig_dir)

/-! ### Interactive threshold collection of `filter_low_abundance_otus`

(lines 347-364).  `filter_min_count` is accepted when `int(text)`
succeeds and is `> 0`; `filter_min_freq` is accepted as soon as
`float(text)` succeeds — the loop `break`s on any successful parse,
without any range check. -/

/-- Value of a digit string (most significant digit first). -/
def digitsToNat (cs : List Char) : Nat :=
  cs.foldl (fun acc c => acc * 10 + (c.toNat - 48)) 0

/-- Sign-and-digits integer literal: Python's `int(text)` on a stripped
string (decimal digits with an optional leading sign). -/
def pyParseInt (s : String) : Option Int :=
  let core : List Char → Int → Option Int := fun cs sign =>
    if cs ≠ [] ∧ cs.all Char.isDigit then some (sign * digitsToNat cs) else none
  match s.data with
  | Char.ofNat 43 :: rest => core rest 1
  | Char.ofNat 45 :: rest => core rest (-1)
  | cs => core cs 1

/-- Unsigned decimal literal `digits[.digits]` (at least one digit in
total), parsed at the character level: integer-part value,
fraction-part value, and number of fraction digits. -/
def pyParseDec (cs : List Char) : Option (Nat × Nat × Nat) :=
  match cs.span Char.isDigit with
  | (intPart, rest) =>
    match rest with
    | [] => if intPart ≠ [] then some (digitsToNat intPart, 0, 0) else none
    | Char.ofNat 46 :: fracPart =>
      if fracPart.all Char.isDigit ∧ (intPart ≠ [] ∨ fracPart ≠ []) then
        some (digitsToNat intPart, digitsToNat fracPart, fracPart.length)
      else none
    | _ => none

/-- Value of a parsed decimal literal. -/
def decToRat (p : Nat × Nat × Nat) : ℚ :=
  (p.1 : ℚ) + (p.2.1 : ℚ) / ((10 : ℚ) ^ p.2.2)

/-- Python's `float(text)` on a stripped string, restricted to plain
decimal literals with an optional sign. -/
def pyParseFloat (s : String) : Option ℚ :=
  match s.data with
  | [] => none
  | c :: rest =>
    if c = Char.ofNat 43 then (pyParseDec rest).map decToRat
    else if c = Char.ofNat 45 then (pyParseDec rest).map (fun p => -(decToRat p))
    else (pyParseDec (c :: rest)).map decToRat

/-- The acceptance condition of the `filter_min_count` prompt loop
(lines 348-355): the parsed integer must be positive, anything else is
re-prompted. -/
def minCountAccepts (s : String) : Bool :=
  match pyParseInt s with
  | some n => decide (0 < n)
  | none => false

/-- The acceptance condition of the `filter_min_freq` prompt loop
(lines 358-364): the loop breaks on any successful parse. -/
def minFreqAccepts (s : String) : Bool :=
  (pyParseFloat s).isSome

/-! ### Further helper lemmas -/

section MoreHelpers

/-- Reading column `j` of the filtered table (out-of-range reads give the
empty column on both sides). -/
lemma getD_map_filterCol (mc : Nat) (mf : ℚ) (cols : List (List Nat)) (j : Nat) :
    (cols.map (filterCol mc mf)).getD j [] = filterCol mc mf (cols.getD j []) := by
  rw [List.getD_eq_getElem?_getD, List.getD_eq_getElem?_getD, List.getElem?_map]
  cases cols[j]? with
  | none => rfl
  | some c => rfl

/-- In `Nat`, a list summing to zero is all zeros. -/
lemma eq_zero_of_mem_of_sum_eq_zero {l : List Nat} (hl : l.sum = 0) :
    ∀ x ∈ l, x = 0 := by
  induction l with
  | nil => intro x hx; exact absurd hx (List.not_mem_nil x)
  | cons a as ih =>
    rw [List.sum_cons] at hl
    intro x hx
    rcases List.mem_cons.mp hx with rfl | hx'
    · exact Nat.eq_zero_of_add_eq_zero_right hl
    · exact ih (Nat.eq_zero_of_add_eq_zero_left hl) x hx'

/-- `(s ++ ";")` at the character level. -/
lemma semi_data (s : String) : (s ++ ";").data = s.data ++ [Char.ofNat 59] := by
  rw [String.data_append]

/-- `(B ++ ";" ++ sfx)` at the character level. -/
lemma semi_data3 (B sfx : String) :
    (B ++ ";" ++ sfx).data = B.data ++ Char.ofNat 59 :: sfx.data := by
  rw [String.data_append, String.data_append, List.append_assoc]
  rfl

end MoreHelpers

/-! ### The claims -/

/-- The cell rule exactly as the specification words it: a cell is kept
when it meets the count threshold and its frequency against the
unfiltered column total meets the frequency threshold, and zeroed
otherwise.  Stated separately so that it can be compared against the
embedded program. -/
def specCellRule (mc : Nat) (mf : ℚ) (col : List Nat) : List Nat :=
  col.map (fun x => if mc ≤ x ∧ mf ≤ (x : ℚ) / (col.sum : ℚ) then x else 0)

/-- C1: for every OTU table with non-negative integer cells and a positive
`min_count`, the abundance filter maps each cell `x` of a sample column
with unfiltered column sum `total` to `x` when `x >= min_count` and
`x/total >= min_freq`, and to `0` otherwise; in particular the single
column `[120, 40, 5]` (total `165`) filtered with `min_count = 50`,
`min_freq = 0.1` becomes `[120, 0, 0]`. -/
theorem c1_abundance_filter_cell_rule (t : OTUTable) (mc : Nat) (mf : ℚ)
    (hmc : 0 < mc) :
    (filterTable mc mf t).cols = t.cols.map (specCellRule mc mf)
    ∧ filterTable 50 (1/10) ⟨["OTU_1", "OTU_2", "OTU_3"], ["S1"], [[120, 40, 5]]⟩ =
        ⟨["OTU_1", "OTU_2", "OTU_3"], ["S1"], [[120, 0, 0]]⟩ := by
  constructor
  · exact filterTable_cols mc mf t
  · have h : (filterTable 50 (1/10)
        (⟨["OTU_1", "OTU_2", "OTU_3"], ["S1"], [[120, 40, 5]]⟩ : OTUTable)).cols
        = [[120, 0, 0]] := by
      rw [filterTable_cols]
      simp only [List.map]
      simp only [filterCol, List.sum_cons, List.sum_nil, List.map]
      norm_num [filterCell]
    calc filterTable 50 (1/10)
          (⟨["OTU_1", "OTU_2", "OTU_3"], ["S1"], [[120, 40, 5]]⟩ : OTUTable)
        = ⟨["OTU_1", "OTU_2", "OTU_3"], ["S1"],
            (filterTable 50 (1/10)
              (⟨["OTU_1", "OTU_2", "OTU_3"], ["S1"], [[120, 40, 5]]⟩ : OTUTable)).cols⟩ := rfl
      _ = ⟨["OTU_1", "OTU_2", "OTU_3"], ["S1"], [[120, 0, 0]]⟩ := by rw [h]

/-- Witness for C1 at the spec's scenario table. -/
theorem c1_abundance_filter_cell_rule_witness :
    0 < 50
    ∧ ((filterTable 50 (1/10)
          (⟨["OTU_1", "OTU_2", "OTU_3"], ["S1"], [[120, 40, 5]]⟩ : OTUTable)).cols =
        (⟨["OTU_1", "OTU_2", "OTU_3"], ["S1"], [[120, 40, 5]]⟩ : OTUTable).cols.map
          (specCellRule 50 (1/10))
      ∧ filterTable 50 (1/10) ⟨["OTU_1", "OTU_2", "OTU_3"], ["S1"], [[120, 40, 5]]⟩ =
          ⟨["OTU_1", "OTU_2", "OTU_3"], ["S1"], [[120, 0, 0]]⟩) :=
  ⟨by decide,
    c1_abundance_filter_cell_rule
      ⟨["OTU_1", "OTU_2", "OTU_3"], ["S1"], [[120, 40, 5]]⟩ 50 (1/10) (by decide)⟩

/-- C3: the denominator of the frequency test for a sample column is the
sum of that column in the ORIGINAL, unfiltered table, and the sequential
column-by-column pass may visit the columns in any order without changing
the result. -/
theorem c3_denominator_unfiltered_order_independent (t : OTUTable) (mc : Nat)
    (mf : ℚ) (order : List Nat)
    (hperm : order.Perm (List.range t.cols.length)) :
    applyFilterSeq mc mf t.cols order = (filterTable mc mf t).cols
    ∧ (filterTable mc mf t).cols =
        t.cols.map (fun col => col.map (filterCell mc mf col.sum)) := by
  constructor
  · rw [applyFilterSeq_perm mc mf t.cols order hperm, filterTable_cols]
  · exact filterTable_cols mc mf t

/-- Witness for C3: a two-column table processed right-to-left. -/
theorem c3_denominator_unfiltered_order_independent_witness :
    ([1, 0] : List Nat).Perm
      (List.range (⟨["O1", "O2"], ["S1", "S2"], [[1, 60], [70, 2]]⟩ : OTUTable).cols.length)
    ∧ (applyFilterSeq 50 (1/10)
          (⟨["O1", "O2"], ["S1", "S2"], [[1, 60], [70, 2]]⟩ : OTUTable).cols [1, 0] =
        (filterTable 50 (1/10) (⟨["O1", "O2"], ["S1", "S2"], [[1, 60], [70, 2]]⟩ : OTUTable)).cols
      ∧ (filterTable 50 (1/10) (⟨["O1", "O2"], ["S1", "S2"], [[1, 60], [70, 2]]⟩ : OTUTable)).cols =
          (⟨["O1", "O2"], ["S1", "S2"], [[1, 60], [70, 2]]⟩ : OTUTable).cols.map
            (fun col => col.map (filterCell 50 (1/10) col.sum))) :=
  ⟨by decide,
    c3_denominator_unfiltered_order_independent
      ⟨["O1", "O2"], ["S1", "S2"], [[1, 60], [70, 2]]⟩ 50 (1/10) [1, 0] (by decide)⟩

/-- C4: with a positive `min_count`, a sample column whose unfiltered sum
is zero is returned all-zero, and the short-circuiting conjunction never
evaluates the division `x / total` for it, so no division error can be
raised. -/
theorem c4_zero_total_no_division (t : OTUTable) (mc : Nat) (mf : ℚ) (j : Nat)
    (hmc : 0 < mc) (hz : (t.cols.getD j []).sum = 0) :
    (filterTable mc mf t).cols.getD j [] =
      List.replicate (t.cols.getD j []).length 0
    ∧ filterColT mc mf (t.cols.getD j []) =
        List.replicate (t.cols.getD j []).length (0, false) := by
  have hall : ∀ x ∈ t.cols.getD j [], x = 0 := eq_zero_of_mem_of_sum_eq_zero hz
  constructor
  · rw [filterTable_cols, getD_map_filterCol]
    unfold filterCol
    rw [List.eq_replicate_iff]
    refine ⟨by rw [List.length_map], ?_⟩
    intro b hb
    rcases List.mem_map.mp hb with ⟨x, hx, hxb⟩
    have hx0 : x = 0 := hall x hx
    subst hx0
    rw [← hxb]
    exact filterCell_zero mc mf _
  · unfold filterColT
    rw [List.eq_replicate_iff]
    refine ⟨by rw [List.length_map], ?_⟩
    intro b hb
    rcases List.mem_map.mp hb with ⟨x, hx, hxb⟩
    have hx0 : x = 0 := hall x hx
    subst hx0
    rw [← hxb]
    unfold filterCellT
    rw [if_neg (by omega)]

/-- Witness for C4: second column of a two-sample table is all zero. -/
theorem c4_zero_total_no_division_witness :
    0 < 50
    ∧ ((⟨["O1", "O2"], ["S1", "S2"], [[5, 7], [0, 0]]⟩ : OTUTable).cols.getD 1 []).sum = 0
    ∧ ((filterTable 50 (1/10) (⟨["O1", "O2"], ["S1", "S2"], [[5, 7], [0, 0]]⟩ : OTUTable)).cols.getD 1 [] =
        List.replicate ((⟨["O1", "O2"], ["S1", "S2"], [[5, 7], [0, 0]]⟩ : OTUTable).cols.getD 1 []).length 0
      ∧ filterColT 50 (1/10)
          ((⟨["O1", "O2"], ["S1", "S2"], [[5, 7], [0, 0]]⟩ : OTUTable).cols.getD 1 []) =
          List.replicate ((⟨["O1", "O2"], ["S1", "S2"], [[5, 7], [0, 0]]⟩ : OTUTable).cols.getD 1 []).length (0, false)) :=
  ⟨by decide, by decide,
    c4_zero_total_no_division ⟨["O1", "O2"], ["S1", "S2"], [[5, 7], [0, 0]]⟩
      50 (1/10) 1 (by decide) (by decide)⟩

/-- C5: the abundance-table filter is idempotent — filtering the filtered
table with the same thresholds reproduces it exactly. -/
theorem c5_filter_idempotent (mc : Nat) (mf : ℚ) (t : OTUTable) :
    filterTable mc mf (filterTable mc mf t) = filterTable mc mf t := by
  have hcols : (filterTable mc mf (filterTable mc mf t)).cols =
      (filterTable mc mf t).cols := by
    rw [filterTable_cols, filterTable_cols, List.map_map]
    apply List.map_congr_left
    intro col _
    exact filterCol_idem mc mf col
  calc filterTable mc mf (filterTable mc mf t)
      = ⟨t.otuIds, t.sampleIds, (filterTable mc mf (filterTable mc mf t)).cols⟩ := rfl
    _ = ⟨t.otuIds, t.sampleIds, (filterTable mc mf t).cols⟩ := by rw [hcols]
    _ = filterTable mc mf t := rfl

/-- C6: with `min_freq = 0` the frequency criterion is vacuous and only
the count criterion decides each cell; in particular `[9, 10, 1000]` with
`min_count = 10` becomes `[0, 10, 1000]`. -/
theorem c6_min_freq_zero_count_only (t : OTUTable) (mc : Nat) :
    (filterTable mc 0 t).cols =
      t.cols.map (fun col => col.map (fun x => if mc ≤ x then x else 0))
    ∧ (filterTable 10 0 (⟨["O1", "O2", "O3"], ["S1"], [[9, 10, 1000]]⟩ : OTUTable)).cols =
        [[0, 10, 1000]] := by
  constructor
  · rw [filterTable_cols]
    apply List.map_congr_left
    intro col _
    unfold filterCol
    apply List.map_congr_left
    intro x _
    unfold filterCell
    have hnn : (0 : ℚ) ≤ (x : ℚ) / (col.sum : ℚ) :=
      div_nonneg (Nat.cast_nonneg x) (Nat.cast_nonneg col.sum)
    by_cases hx : mc ≤ x
    · rw [if_pos ⟨hx, hnn⟩, if_pos hx]
    · rw [if_neg (fun hc => hx hc.1), if_neg hx]
  · rw [filterTable_cols]
    simp only [List.map]
    simp only [filterCol, List.sum_cons, List.sum_nil, List.map]
    norm_num [filterCell]

/-- C2 fails on the code: filtering zeroes cells but never drops a row of
the table, so an OTU whose filtered counts are ALL ZERO is still among
the filtered table's row labels, still lands in `list.t1`, and its
sequence record is placed in the PASSED output, not the failed one.
Concretely: one OTU `OTU_1` with single count `1`, thresholds `50` and
`0.1`, record id `OTU_1;size=1`. -/
theorem c2_all_zero_row_matched_counterexample :
    (filterTable 50 (1/10) (⟨["OTU_1"], ["S1"], [[1]]⟩ : OTUTable)).cols = [[0]]
    ∧ (filterTable 50 (1/10) (⟨["OTU_1"], ["S1"], [[1]]⟩ : OTUTable)).otuIds = ["OTU_1"]
    ∧ passedIds (listT1 (filterTable 50 (1/10) (⟨["OTU_1"], ["S1"], [[1]]⟩ : OTUTable)))
        ["OTU_1;size=1"] = ["OTU_1;size=1"]
    ∧ failedIds (listT1 (filterTable 50 (1/10) (⟨["OTU_1"], ["S1"], [[1]]⟩ : OTUTable)))
        ["OTU_1;size=1"] = [] := by
  refine ⟨?_, rfl, by decide, by decide⟩
  rw [filterTable_cols]
  simp only [List.map]
  simp only [filterCol, List.sum_cons, List.sum_nil, List.map]
  norm_num [filterCell]

/-- C2 (amended): the id set used for the partition is the FULL row-label
list of the filtered table, which is identical to the unfiltered table's
row labels (rows are never dropped); a record is placed in the passed
output iff its identifier contains some row label followed by `";"`, and
in the failed output otherwise — OTUs with all-zero filtered counts are
still row labels and are therefore still matched into the passed set. -/
theorem c2_partition_amended (mc : Nat) (mf : ℚ) (t : OTUTable)
    (records : List String) (rid : String) :
    (filterTable mc mf t).otuIds = t.otuIds
    ∧ (rid ∈ passedIds (listT1 (filterTable mc mf t)) records ↔
        rid ∈ records ∧ ∃ o ∈ t.otuIds, (o ++ ";").data <:+: rid.data)
    ∧ (rid ∈ failedIds (listT1 (filterTable mc mf t)) records ↔
        rid ∈ records ∧ ¬ ∃ o ∈ t.otuIds, (o ++ ";").data <:+: rid.data) := by
  have hmatch : matchesAny (listT1 (filterTable mc mf t)) rid = true ↔
      ∃ o ∈ t.otuIds, (o ++ ";").data <:+: rid.data := by
    simp only [matchesAny, List.any_eq_true, listT1, List.mem_map,
      filterTable_otuIds, infixB_iff]
    constructor
    · rintro ⟨a, ⟨o, ho, rfl⟩, hin⟩
      exact ⟨o, ho, hin⟩
    · rintro ⟨o, ho, hin⟩
      exact ⟨o ++ ";", ⟨o, ho, rfl⟩, hin⟩
  refine ⟨rfl, ?_, ?_⟩
  · rw [passedIds, List.mem_filter, hmatch]
  · rw [failedIds, List.mem_filter, Bool.not_eq_true', ← Bool.not_eq_true, hmatch]

/-- C7 fails on the code: `relabel_and_cluster` performs
`os.chdir(otu_dir)` and only restores the saved directory at its final
line, with no `try`/`finally`; when the first external command exits
non-zero, `run_command` re-raises and control leaves the function with
the working directory still set to `output_dir/7-OTU`. -/
theorem c7_cwd_not_restored_on_failure :
    relabelAndClusterCwd "/home/user" "/out" (fun _ => false) true
      = (CmdOutcome.raised "relabel", pathJoin "/out" "7-OTU")
    ∧ pathJoin "/out" "7-OTU" ≠ "/home/user" := by
  exact ⟨rfl, by decide⟩

/-- C8: the demultiplex stage emits exactly one event per metadata row —
an external command whose argument vector embeds the sample's anchored
forward and reverse primers when both raw files exist, and a warning
naming the sample otherwise — and always continues with the remaining
rows. -/
theorem c8_demultiplex_events (ex : String → Bool) (p i d : String)
    (th : Nat) (rows : List SampleRecord) (k : Nat) :
    (demultiplex ex p i d th rows).length = rows.length
    ∧ (demultiplex ex p i d th rows)[k]? = (rows[k]?).map (fun r =>
        if ex (pathJoin i r.forwardFile) && ex (pathJoin i r.reverseFile)
          then DemuxEvent.ran (cutadaptCmd p i d th r)
          else DemuxEvent.warned r.sampleId)
    ∧ ∀ r : SampleRecord, ("^" ++ r.forwardPrimer) ∈ cutadaptCmd p i d th r
        ∧ ("^" ++ r.reversePrimer) ∈ cutadaptCmd p i d th r := by
  refine ⟨?_, ?_, ?_⟩
  · induction rows with
    | nil => rfl
    | cons r rs ih => simp only [demultiplex, List.length_cons, ih]
  · induction rows generalizing k with
    | nil => simp [demultiplex]
    | cons r rs ih =>
      cases k with
      | zero => simp [demultiplex]
      | succ k' => simp only [demultiplex, List.getElem?_cons_succ, ih]
  · intro r
    constructor
    · simp [cutadaptCmd]
    · simp [cutadaptCmd]

/-- C9 fails on the code for `min_freq`: the prompt loop breaks on ANY
input that parses as a number — `1.5` parses to `3/2`, which is outside
`[0, 1)`, yet it is accepted. -/
theorem c9_min_freq_accepts_out_of_range :
    minFreqAccepts "1.5" = true
    ∧ pyParseFloat "1.5" = some (3/2)
    ∧ ¬ ((0 : ℚ) ≤ 3/2 ∧ (3 : ℚ)/2 < 1) := by
  refine ⟨by decide, ?_, by norm_num⟩
  have h : pyParseFloat "1.5" = some (decToRat (1, 5, 1)) := rfl
  rw [h]
  norm_num [decToRat]

/-- C9 (amended): `min_count` is accepted exactly when the input parses
as a positive integer; `min_freq` is accepted exactly when the input
parses as a decimal number at all — no `[0, 1)` range restriction is
applied, so negative values and values `>= 1` are accepted too. -/
theorem c9_threshold_validators_amended (s : String) :
    (minCountAccepts s = true ↔ ∃ n : Int, pyParseInt s = some n ∧ 0 < n)
    ∧ (minFreqAccepts s = true ↔ ∃ q : ℚ, pyParseFloat s = some q) := by
  constructor
  · unfold minCountAccepts
    cases h : pyParseInt s with
    | none => simp
    | some n =>
      simp only [decide_eq_true_eq, Option.some.injEq]
      constructor
      · intro hn
        exact ⟨n, rfl, hn⟩
      · rintro ⟨m, rfl, hm⟩
        exact hm
  · unfold minFreqAccepts
    rw [Option.isSome_iff_exists]

/-- C10 fails as stated: when the shorter id is both a proper PREFIX and
a proper SUFFIX of the longer one, the appended delimiter itself
completes a match.  With `A = "O"`, `B = "OO"`, suffix `""`, the record
id `"OO;"` has the form `B ++ ";" ++ suffix`, the suffix contains no
occurrence of `"O;"`, yet the membership test for `A` matches. -/
theorem c10_false_positive_counterexample :
    ("O" : String) ≠ "OO"
    ∧ ("O" : String).data <+: ("OO" : String).data
    ∧ ¬ ((("O" : String) ++ ";").data <:+: ("" : String).data)
    ∧ infixB (("O" : String) ++ ";").data (("OO" : String) ++ ";" ++ "").data = true := by
  refine ⟨by decide, by decide, by decide, by decide⟩

/-- C10 (amended): the membership test for id `A` matches a record id
exactly when the record id contains `A ++ ";"` as a substring; and for
distinct ids `A`, `B` with `A` a proper prefix of `B`, provided `B`
contains no semicolon and `A` is NOT also a suffix of `B`, a record of
the form `B ++ ";" ++ suffix` whose suffix contains no occurrence of
`A ++ ";"` is never matched by the test for `A`. -/
theorem c10_delimiter_matching_amended (A B sfx : String)
    (hne : A ≠ B) (hpre : A.data <+: B.data)
    (hB : Char.ofNat 59 ∉ B.data)
    (hsuf : ¬ A.data <:+ B.data)
    (hocc : ¬ ((A ++ ";").data <:+: sfx.data)) :
    infixB ((A ++ ";")).data ((B ++ ";" ++ sfx)).data = false
    ∧ ∀ (idStr rid : String),
        (infixB ((idStr ++ ";")).data rid.data = true ↔
          ((idStr ++ ";")).data <:+: rid.data) := by
  constructor
  · rw [← Bool.not_eq_true, infixB_iff]
    intro hin
    rw [semi_data, semi_data3] at hin
    have hA : Char.ofNat 59 ∉ A.data := fun hmem => hB (hpre.sublist.subset hmem)
    rcases semi_infix_cases A.data sfx.data hA B.data hin with h59 | hsf | hi
    · exact hB h59
    · exact hsuf hsf
    · rw [semi_data] at hocc
      exact hocc hi
  · intro idStr rid
    exact infixB_iff rid.data ((idStr ++ ";")).data

/-- Witness for the amended C10 at the spec's own example pair
`OTU_1` / `OTU_10`. -/
theorem c10_delimiter_matching_amended_witness :
    ("OTU_1" : String) ≠ "OTU_10"
    ∧ infixB ((("OTU_1" : String) ++ ";")).data
        ((("OTU_10" : String) ++ ";" ++ "size=5")).data = false :=
  ⟨by decide,
    (c10_delimiter_matching_amended "OTU_1" "OTU_10" "size=5"
      (by decide) (by decide) (by decide) (by decide) (by decide)).1⟩

end Amplicon
